import Mathlib

/-!
Verification of the `VectorManager` batching pipeline
(`src/core/vector_manager.js`): value-to-string conversion, the greedy
size-bounded batch splitter, the wave-based dispatch loop with its
forward result cursor, the debounce timer decision, and the
classification of per-request outcomes in `create`.
-/

/-- Model of a JavaScript runtime value, restricted to the shapes the
vector manager manipulates: `null`, `undefined`, booleans, numbers
(modelled as integers), strings, arrays, and `Error` objects carrying a
message. -/
inductive JSValue where
  | vNull
  | vUndefined
  | vBool (b : Bool)
  | vNum (n : Int)
  | vStr (s : String)
  | vArr (elems : List JSValue)
  | vErr (msg : String)

/-- JavaScript truthiness of a value: `null`, `undefined`, `false`, `0`
and the empty string are falsy; every array and `Error` object is truthy. -/
def truthy : JSValue → Bool
  | .vNull => false
  | .vUndefined => false
  | .vBool b => b
  | .vNum n => n != 0
  | .vStr s => s.length != 0
  | .vArr _ => true
  | .vErr _ => true

/-- The `value instanceof Error` test. -/
def isError : JSValue → Bool
  | .vErr _ => true
  | _ => false

/-- The `Array.isArray(value)` test. -/
def isArray : JSValue → Bool
  | .vArr _ => true
  | _ => false

mutual

/-- Model of JavaScript `String(value)` conversion (the semantics of
`value + ''` and of template-literal interpolation). Arrays join their
elements with commas, with `null`/`undefined` elements rendered empty. -/
def jsString : JSValue → String
  | .vNull => "null"
  | .vUndefined => "undefined"
  | .vBool b => if b then "true" else "false"
  | .vNum n => toString n
  | .vStr s => s
  | .vArr l => String.intercalate "," (jsStringElems l)
  | .vErr m => "Error: " ++ m

/-- Elements of an array as rendered by `Array.prototype.toString`
(`join(',')`). -/
def jsStringElems : List JSValue → List String
  | [] => []
  | .vNull :: rest => "" :: jsStringElems rest
  | .vUndefined :: rest => "" :: jsStringElems rest
  | v :: rest => jsString v :: jsStringElems rest

end

mutual

/-- Model of `JSON.stringify(value)` for the value shapes above
(string escaping elided; an `Error` object serializes as `{}` because
its properties are non-enumerable). -/
def jsonStringify : JSValue → String
  | .vNull => "null"
  | .vUndefined => "null"
  | .vBool b => if b then "true" else "false"
  | .vNum n => toString n
  | .vStr s => "\"" ++ s ++ "\""
  | .vArr l => "[" ++ String.intercalate "," (jsonStringifyElems l) ++ "]"
  | .vErr _ => "\x7b\x7d"

/-- Serialized elements of an array. -/
def jsonStringifyElems : List JSValue → List String
  | [] => []
  | v :: rest => jsonStringify v :: jsonStringifyElems rest

end

/-- Embedding of `VectorManager.convertToString` (vector_manager.js lines
126-132): `null`/`undefined` become the empty string, objects (arrays and
`Error`s here) are JSON-stringified, and any other value is converted by
string coercion. -/
def convertToString : JSValue → String
  | .vNull => ""
  | .vUndefined => ""
  | .vArr l => jsonStringify (.vArr l)
  | .vErr m => jsonStringify (.vErr m)
  | v => jsString v

/-- The `str.slice(0, m)` truncation used at line 79: the first `m`
characters of `s`. -/
def truncateStr (m : Nat) (s : String) : String :=
  (s.toList.take m).asString

/-- Total character length of a batch of strings. -/
def sumLen (b : List String) : Nat :=
  (b.map String.length).sum

/-- The `batches[batches.length - 1].push(str)` operation at line 87:
append a string to the last batch of a non-empty batch list. -/
def pushLast : List (List String) → String → List (List String)
  | [], _ => []
  | [b], s => [b ++ [s]]
  | b :: b2 :: rest, s => b :: pushLast (b2 :: rest) s

/-- The batch-splitting loop of `batchVectorize` (lines 76-89): each
string is truncated to `m` characters; if adding it to the running total
overflows `m`, a fresh batch holding just that string is started and the
running total resets to its length, otherwise it is appended to the
current (last) batch. -/
def splitLoop (m : Nat) : List String → List (List String) → Nat → List (List String)
  | [], batches, _ => batches
  | sv :: rest, batches, curBatchSize =>
    let str := truncateStr m sv
    let cur := curBatchSize + str.length
    if m < cur then
      splitLoop m rest (batches ++ [[str]]) str.length
    else
      splitLoop m rest (pushLast batches str) cur

/-- The Batcher: split a list of strings into ordered batches with
character budget `m`, starting from a single empty batch and a zero
running total, exactly as `batchVectorize` does. -/
def split (strValues : List String) (m : Nat) : List (List String) :=
  splitLoop m strValues [[]] 0

/-- A settled engine promise, as produced by `Promise.allSettled` at line
93: either rejected with a reason or fulfilled with a value. -/
inductive Settled where
  | rejected (reason : JSValue)
  | fulfilled (value : JSValue)

/-- The reason normalization of lines 97-100: a rejection reason that is
not an `Error` is wrapped as `new Error(reason)`, whose message is the
string coercion of the reason. -/
def wrapReason (r : JSValue) : JSValue :=
  if isError r then r else .vErr (jsString r)

/-- The `Array.isArray(vectors) ? vectors : []` normalization of lines
104-107. -/
def asArray : JSValue → List JSValue
  | .vArr l => l
  | _ => []

/-- JavaScript indexing `l[k]`: the element at `k`, or `undefined` when
out of range. -/
def jsIndex (l : List JSValue) (k : Nat) : JSValue :=
  l.getD k .vUndefined

/-- The per-position outcome of a fulfilled engine result (lines
108-114): the entry `vectors[k]` when truthy, else the sentinel `-1`. -/
def outcomeAt (vs : List JSValue) (k : Nat) : JSValue :=
  if truthy (jsIndex vs k) then jsIndex vs k else .vNum (-1)

/-- The rejected branch of lines 95-102: for each string of the batch,
write the (normalized) rejection reason to the queue item at the cursor
and advance the cursor. Writes are recorded as (queue position, value)
pairs. -/
def rejectedWrites (r : JSValue) : Nat → List String → List (Nat × JSValue)
  | _, [] => []
  | i, _ :: rest => (i, wrapReason r) :: rejectedWrites r (i + 1) rest

/-- The fulfilled branch of lines 103-114: for the `k`-th string of the
batch, write `vectors[k]` if it is truthy and the sentinel `-1`
otherwise, advancing the cursor per item. -/
def fulfilledWrites (vs : List JSValue) : Nat → Nat → List String → List (Nat × JSValue)
  | _, _, [] => []
  | i, k, _ :: rest =>
    (i, outcomeAt vs k) :: fulfilledWrites vs (i + 1) (k + 1) rest

/-- Result handling for one settled batch (the body of the `forEach` at
lines 94-116), starting at cursor position `i`. -/
def batchWrites (b : List String) (r : Settled) (i : Nat) : List (Nat × JSValue) :=
  match r with
  | .rejected reason => rejectedWrites reason i b
  | .fulfilled v => fulfilledWrites (asArray v) i 0 b

/-- Result handling for a wave: the `forEach` over `parallelVectors`
paired with `parallelBatches`, threading the single forward cursor `i`
across batches (it advances once per write and is never reset). -/
def settledWrites : List (List String × Settled) → Nat → List (Nat × JSValue)
  | [], _ => []
  | (b, r) :: rest, i =>
    batchWrites b r i ++ settledWrites rest (i + (batchWrites b r i).length)

/-- The wave loop of lines 90-117: while batches remain, splice off the
first `m` of them, settle their engine calls (the settled outcomes are
consumed from `os` in batch order), record the writes, and continue with
the rest. `fuel` bounds the number of iterations; `none` means the fuel
ran out before the loop finished, which happens exactly when `m = 0`
leaves the batch list unchanged. -/
def dispatchLoop (m : Nat) : Nat → List (List String) → List Settled → Nat →
    Option (List (Nat × JSValue))
  | _, [], _, _ => some []
  | 0, _ :: _, _, _ => none
  | fuel + 1, b :: bs, os, i =>
    let wave := (b :: bs).take m
    let writes := settledWrites (wave.zip (os.take m)) i
    match dispatchLoop m fuel ((b :: bs).drop m) (os.drop m) (i + writes.length) with
    | none => none
    | some rest => some (writes ++ rest)

/-- The wave structure of the same loop: the successive
`batches.splice(0, maximumParallelRequests)` slices, ignoring outcome
handling. -/
def waveLoop (m : Nat) : Nat → List (List String) → Option (List (List (List String)))
  | _, [] => some []
  | 0, _ :: _ => none
  | fuel + 1, b :: bs =>
    match waveLoop m fuel ((b :: bs).drop m) with
    | none => none
    | some ws => some ((b :: bs).take m :: ws)

/-- The specified outcome list for one batch, following the spec text:
on failure every item of the batch receives the batch error; on success
item `k` receives the result entry at `k` when that entry is truthy and
the `Malformed` sentinel otherwise. -/
def specOutcome (b : List String) (r : Settled) : List JSValue :=
  match r with
  | .rejected reason => b.map (fun _ => wrapReason reason)
  | .fulfilled v =>
    (List.range b.length).map (fun k => outcomeAt (asArray v) k)

/-- The specified outcomes of a run: each batch contributes its own
outcomes, in batch order. -/
def specOutcomes (pairs : List (List String × Settled)) : List JSValue :=
  pairs.flatMap (fun p => specOutcome p.1 p.2)

/-- The whole `batchVectorize` pipeline (lines 74-119) on a flushed
queue: convert each queued value to a string, split into batches, then
run the wave loop with concurrency ceiling `m`, the batches' settled
engine outcomes `os`, and cursor `0`. Fuel is the number of batches,
which suffices whenever `1 ≤ m`. -/
def batchVectorize (queue : List JSValue) (maxB m : Nat) (os : List Settled) :
    Option (List (Nat × JSValue)) :=
  dispatchLoop m (split (queue.map convertToString) maxB).length
    (split (queue.map convertToString) maxB) os 0

/-- An observable engine interaction: an engine call starting for a
batch, or that call settling (fulfilled or rejected). -/
inductive EngineEvent where
  | callStart (batch : List String)
  | callSettle (batch : List String)

/-- Whether an event is the start of an engine call. -/
def isStart : EngineEvent → Bool
  | .callStart _ => true
  | .callSettle _ => false

/-- The events of one wave: the `map` at line 93 starts one engine call
per batch of the wave, and `Promise.allSettled` waits until every one of
those calls has settled before the loop continues. -/
def waveEvents (w : List (List String)) : List EngineEvent :=
  w.map EngineEvent.callStart ++ w.map EngineEvent.callSettle

/-- The event trace of a whole dispatch run over its waves. -/
def dispatchTrace (ws : List (List (List String))) : List EngineEvent :=
  ws.flatMap waveEvents

/-- Number of engine calls outstanding after a trace: calls started
minus calls settled. -/
def outstanding (t : List EngineEvent) : Int :=
  (t.countP isStart : Int) - (t.countP (fun e => !isStart e) : Int)

/-- Timer configuration of the manager: `fastQueueTime` and
`waitQueueTime` (integers, as JavaScript durations can be computed by
subtraction). -/
structure TimerConfig where
  fastQueueTime : Int
  waitQueueTime : Int

/-- What the expiry handler of a timer decides to do next. -/
inductive TimerDecision where
  | rescheduleFast (duration : Int)
  | flushNow
  | scheduleExtend (duration : Int)

/-- Embedding of the FastWait expiry callback of `createTimeout` (lines
150-161): while a flush is in progress, reschedule another fast timer of
duration `fastQueueTime`; otherwise flush immediately when the queue
holds at most one request, and otherwise start a second timer of
duration `waitQueueTime - fastQueueTime`. -/
def onFastExpiry (cfg : TimerConfig) (processing : Bool) (queueLength : Nat) :
    TimerDecision :=
  if processing then .rescheduleFast cfg.fastQueueTime
  else if queueLength ≤ 1 then .flushNow
  else .scheduleExtend (cfg.waitQueueTime - cfg.fastQueueTime)

/-- Embedding of the second timer's callback (line 157), which calls
`__dequeue__` unconditionally. -/
def onExtendExpiry : TimerDecision :=
  .flushNow

/-- The mutable state of a `VectorManager` that `create` touches before
waiting: whether an engine is set, the pending queue, whether a timeout
handle exists, and whether a flush is in progress. -/
structure MState where
  engineSet : Bool
  queue : List JSValue
  timeoutActive : Bool
  processing : Bool

/-- The error message thrown by `create` when no engine is set (lines
171-174). -/
def engineMissingMessage : String :=
  "Could not vectorize: no vector engine has been set.\nUse Instant.Vectors.setEngine(fn) to enable."

/-- The `InvalidVectorResult` error thrown by `create` (lines 189-191),
naming the original input value via template interpolation. -/
def invalidVectorError (value : JSValue) : JSValue :=
  .vErr ("Could not vectorize: vector engine did not return a valid vector for input \""
    ++ jsString value ++ "\"")

/-- The enqueue phase of `create` (lines 169-180): with no engine set it
throws `engineMissingMessage` and leaves the state untouched; otherwise
it appends the request to the queue and ensures a timeout is scheduled
(starting one only when none exists). -/
def createEnqueue (s : MState) (v : JSValue) : MState × Except String JSValue :=
  if s.engineSet = false then
    (s, .error engineMissingMessage)
  else
    ({ s with queue := s.queue ++ [v], timeoutActive := true }, .ok v)

/-- The classification step of `create` (lines 185-193) applied to the
value read from the result store: an `Error` is thrown as-is, a
non-array value triggers the `InvalidVectorResult` error naming the
input, and an array is returned as the vector. -/
def classifyResult (value result : JSValue) : Except JSValue JSValue :=
  if isError result then .error result
  else if isArray result = false then .error (invalidVectorError value)
  else .ok result

/-- The poll test of the wait loop at line 182: `_results.get(item)`
yields `undefined` when no outcome is present, and the loop exits as
soon as the read value is truthy. -/
def pollObserves (slot : Option JSValue) : Bool :=
  truthy (slot.getD .vUndefined)

theorem asString_length (l : List Char) : (l.asString).length = l.length := rfl

theorem truncateStr_length_le (m : Nat) (s : String) : (truncateStr m s).length ≤ m := by
  unfold truncateStr
  rw [asString_length]
  exact le_trans (List.length_take_le m s.toList) (le_refl m)

theorem pushLast_flatten (s : String) :
    ∀ (batches : List (List String)), batches ≠ [] →
      (pushLast batches s).flatten = batches.flatten ++ [s] := by
  intro batches
  induction batches with
  | nil => intro h; exact absurd rfl h
  | cons b rest ih =>
    intro _
    cases rest with
    | nil => simp [pushLast]
    | cons b2 rest2 =>
      simp only [pushLast, List.flatten_cons]
      rw [ih (by simp)]
      simp

theorem pushLast_ne_nil (s : String) (batches : List (List String)) (h : batches ≠ []) :
    pushLast batches s ≠ [] := by
  cases batches with
  | nil => exact absurd rfl h
  | cons b rest =>
    cases rest with
    | nil => simp [pushLast]
    | cons b2 rest2 => simp [pushLast]

theorem splitLoop_flatten (m : Nat) :
    ∀ (l : List String) (batches : List (List String)) (cur : Nat), batches ≠ [] →
      (splitLoop m l batches cur).flatten
        = batches.flatten ++ l.map (truncateStr m) := by
  intro l
  induction l with
  | nil => intro batches cur _; simp [splitLoop]
  | cons sv rest ih =>
    intro batches cur hne
    simp only [splitLoop, List.map_cons]
    by_cases h : m < cur + (truncateStr m sv).length
    · rw [if_pos h, ih _ _ (by simp)]
      simp
    · rw [if_neg h, ih _ _ (pushLast_ne_nil _ _ hne), pushLast_flatten _ _ hne]
      simp

theorem split_flatten (strValues : List String) (m : Nat) :
    (split strValues m).flatten = strValues.map (truncateStr m) := by
  unfold split
  rw [splitLoop_flatten m strValues [[]] 0 (by simp)]
  simp

/-- C2: order preservation of the batch split. The batching step is a
pure Lean function, and flattening all batches it produces reproduces
the original item list exactly, each item once, in its truncated string
form. -/
theorem batcher_flatten_order (strValues : List String) (m : Nat) :
    (split strValues m).flatten = strValues.map (truncateStr m) :=
  split_flatten strValues m

theorem pushLast_append_last (s : String) :
    ∀ (front : List (List String)) (last : List String),
      pushLast (front ++ [last]) s = front ++ [last ++ [s]] := by
  intro front
  induction front with
  | nil => intro last; simp [pushLast]
  | cons b rest ih =>
    intro last
    cases h : rest ++ [last] with
    | nil => exact absurd h (by simp)
    | cons b2 rest2 =>
      simp only [List.cons_append, h, pushLast]
      rw [← h, ih]

theorem sumLen_append_single (b : List String) (s : String) :
    sumLen (b ++ [s]) = sumLen b + s.length := by
  simp [sumLen]

theorem splitLoop_sumLen_le (m : Nat) :
    ∀ (l : List String) (front : List (List String)) (last : List String) (cur : Nat),
      sumLen last = cur → cur ≤ m → (∀ b ∈ front, sumLen b ≤ m) →
      ∀ b ∈ splitLoop m l (front ++ [last]) cur, sumLen b ≤ m := by
  intro l
  induction l with
  | nil =>
    intro front last cur hlast hcur hfront b hb
    simp only [splitLoop] at hb
    rcases List.mem_append.mp hb with h | h
    · exact hfront b h
    · rw [List.mem_singleton.mp h]; omega
  | cons sv rest ih =>
    intro front last cur hlast hcur hfront b hb
    simp only [splitLoop] at hb
    by_cases h : m < cur + (truncateStr m sv).length
    · rw [if_pos h] at hb
      rw [show front ++ [last] ++ [[truncateStr m sv]]
            = (front ++ [last]) ++ [[truncateStr m sv]] from by simp] at hb
      refine ih (front ++ [last]) [truncateStr m sv] (truncateStr m sv).length
        (by simp [sumLen]) (truncateStr_length_le m sv) ?_ b hb
      intro b2 hb2
      rcases List.mem_append.mp hb2 with h2 | h2
      · exact hfront b2 h2
      · rw [List.mem_singleton.mp h2]; omega
    · rw [if_neg h, pushLast_append_last] at hb
      refine ih front (last ++ [truncateStr m sv]) (cur + (truncateStr m sv).length)
        ?_ (by omega) hfront b hb
      rw [sumLen_append_single, hlast]

/-- C3: batch size bound. Every item is first truncated to at most `m`
characters, and every batch produced by the split — singleton batches
included — has total truncated-character length at most `m`; this is
stronger than the claim, which only demands the bound for batches of two
or more items, and it covers the edge case of an item whose truncated
length equals `m` exactly. -/
theorem batcher_size_bound (strValues : List String) (m : Nat) :
    (∀ b ∈ split strValues m, sumLen b ≤ m) ∧
    (∀ s ∈ strValues, (truncateStr m s).length ≤ m) := by
  constructor
  · intro b hb
    refine splitLoop_sumLen_le m strValues [] [] 0 (by simp [sumLen]) (Nat.zero_le m) ?_ b ?_
    · intro b2 hb2; simp at hb2
    · simpa [split] using hb
  · intro s _; exact truncateStr_length_le m s

/-- Witness for C3 at a concrete input: splitting the two-character
strings "ab" and "cd" with budget 1 truncates each to one character and
yields singleton batches, each of total length at most 1. -/
theorem batcher_size_bound_instance : sumLen ["a"] ≤ 1 :=
  (batcher_size_bound ["ab", "cd"] 1).1 ["a"] (by decide)

theorem rejectedWrites_eq (r : JSValue) :
    ∀ (b : List String) (i : Nat),
      rejectedWrites r i b = List.enumFrom i (b.map (fun _ => wrapReason r)) := by
  intro b
  induction b with
  | nil => intro i; rfl
  | cons s rest ih => intro i; simp [rejectedWrites, List.enumFrom, ih]

theorem fulfilledWrites_eq (vs : List JSValue) :
    ∀ (b : List String) (i k : Nat),
      fulfilledWrites vs i k b
        = List.enumFrom i ((List.range b.length).map (fun j => outcomeAt vs (k + j))) := by
  intro b
  induction b with
  | nil => intro i k; rfl
  | cons s rest ih =>
    intro i k
    simp only [fulfilledWrites, ih, List.length_cons, List.range_succ_eq_map,
      List.map_cons, List.map_map, List.enumFrom, Nat.add_zero]
    have hmap : List.map ((fun j => outcomeAt vs (k + j)) ∘ Nat.succ) (List.range rest.length)
        = List.map (fun j => outcomeAt vs (k + 1 + j)) (List.range rest.length) := by
      apply List.map_congr_left
      intro a _
      simp only [Function.comp_apply]
      congr 1
      omega
    rw [hmap]

theorem specOutcome_length (b : List String) (r : Settled) :
    (specOutcome b r).length = b.length := by
  cases r with
  | rejected reason => simp [specOutcome]
  | fulfilled v => simp [specOutcome]

theorem batchWrites_eq (b : List String) (r : Settled) (i : Nat) :
    batchWrites b r i = List.enumFrom i (specOutcome b r) := by
  cases r with
  | rejected reason => simp [batchWrites, specOutcome, rejectedWrites_eq]
  | fulfilled v =>
    simp only [batchWrites, specOutcome, fulfilledWrites_eq, Nat.zero_add]

theorem batchWrites_length (b : List String) (r : Settled) (i : Nat) :
    (batchWrites b r i).length = b.length := by
  rw [batchWrites_eq, List.enumFrom_length, specOutcome_length]

theorem settledWrites_eq :
    ∀ (pairs : List (List String × Settled)) (i : Nat),
      settledWrites pairs i = List.enumFrom i (specOutcomes pairs) := by
  intro pairs
  induction pairs with
  | nil => intro i; rfl
  | cons p rest ih =>
    intro i
    obtain ⟨b, r⟩ := p
    simp only [settledWrites, specOutcomes, List.flatMap_cons]
    rw [List.enumFrom_append, batchWrites_eq, List.enumFrom_length, ih]
    simp [specOutcomes]

theorem zip_take_drop {α β : Type} (m : Nat) (l1 : List α) (l2 : List β)
    (h : l1.length = l2.length) :
    l1.zip l2 = (l1.take m).zip (l2.take m) ++ (l1.drop m).zip (l2.drop m) := by
  conv_lhs => rw [← List.take_append_drop m l1, ← List.take_append_drop m l2]
  rw [List.zip_append (by simp [h])]

theorem specOutcomes_append (p1 p2 : List (List String × Settled)) :
    specOutcomes (p1 ++ p2) = specOutcomes p1 ++ specOutcomes p2 := by
  simp [specOutcomes]

theorem specOutcomes_zip_length :
    ∀ (bs : List (List String)) (os : List Settled), os.length = bs.length →
      (specOutcomes (bs.zip os)).length = bs.flatten.length := by
  intro bs
  induction bs with
  | nil => intro os h; simp [specOutcomes]
  | cons b rest ih =>
    intro os h
    cases os with
    | nil => simp at h
    | cons o os2 =>
      simp only [List.zip_cons_cons, specOutcomes, List.flatMap_cons,
        List.length_append, List.flatten_cons]
      have h2 := ih os2 (by simpa using h)
      simp only [specOutcomes] at h2
      rw [specOutcome_length, h2]

theorem dispatchLoop_eq (m : Nat) (hm : 1 ≤ m) :
    ∀ (fuel : Nat) (bs : List (List String)) (os : List Settled) (i : Nat),
      bs.length ≤ fuel → os.length = bs.length →
      dispatchLoop m fuel bs os i
        = some (List.enumFrom i (specOutcomes (bs.zip os))) := by
  intro fuel
  induction fuel with
  | zero =>
    intro bs os i hf ho
    have hbs : bs = [] := List.length_eq_zero.mp (Nat.le_zero.mp hf)
    subst hbs
    simp only [List.length_nil] at ho
    have hos : os = [] := List.length_eq_zero.mp ho
    subst hos
    rfl
  | succ fuel ih =>
    intro bs os i hf ho
    cases bs with
    | nil =>
      simp only [List.length_nil] at ho
      have hos : os = [] := List.length_eq_zero.mp ho
      subst hos
      rfl
    | cons b bs2 =>
      simp only [dispatchLoop]
      rw [ih ((b :: bs2).drop m) (os.drop m)
        (i + (settledWrites (((b :: bs2).take m).zip (os.take m)) i).length)
        (by simp only [List.length_drop, List.length_cons] at *; omega)
        (by simp only [List.length_drop, ho])]
      rw [settledWrites_eq, List.enumFrom_length]
      conv_rhs => rw [zip_take_drop m (b :: bs2) os ho.symm]
      rw [specOutcomes_append, List.enumFrom_append]

/-- C1: no cross-request leakage. For every flushed queue, every batch
budget, every concurrency ceiling of at least one, and every combination
of per-batch settled engine outcomes, the cursor-driven dispatch of
`batchVectorize` writes, for the request at flattened position `p`, the
outcome specified for position `p` of its own batch — its vector, its
batch's error, or the `Malformed` sentinel — and it writes every
position exactly once (the write positions are exactly `0, 1, ...,
queue.length - 1`, in order, each carrying that position's specified
outcome). -/
theorem outcome_cursor_assignment (queue : List JSValue) (maxB m : Nat)
    (os : List Settled) (hm : 1 ≤ m)
    (hos : os.length = (split (queue.map convertToString) maxB).length) :
    batchVectorize queue maxB m os
      = some ((specOutcomes ((split (queue.map convertToString) maxB).zip os)).enum) ∧
    (specOutcomes ((split (queue.map convertToString) maxB).zip os)).length
      = queue.length ∧
    ((specOutcomes ((split (queue.map convertToString) maxB).zip os)).enum).map Prod.fst
      = List.range queue.length := by
  have hlen : (specOutcomes ((split (queue.map convertToString) maxB).zip os)).length
      = queue.length := by
    rw [specOutcomes_zip_length _ _ hos, split_flatten]
    simp
  refine ⟨?_, hlen, ?_⟩
  · unfold batchVectorize
    rw [dispatchLoop_eq m hm _ _ _ 0 (le_refl _) hos]
    rfl
  · rw [List.enum_map_fst, hlen]

/-- Witness for C1 at a concrete input: a single queued string with one
fulfilled batch outcome is written exactly the engine's vector at
position 0. -/
theorem outcome_cursor_assignment_instance :
    batchVectorize [JSValue.vStr "hi"] 10 1 [Settled.fulfilled (JSValue.vArr [JSValue.vNum 3])]
      = some ((specOutcomes ((split ([JSValue.vStr "hi"].map convertToString) 10).zip
          [Settled.fulfilled (JSValue.vArr [JSValue.vNum 3])])).enum) ∧
    (specOutcomes ((split ([JSValue.vStr "hi"].map convertToString) 10).zip
        [Settled.fulfilled (JSValue.vArr [JSValue.vNum 3])])).length = 1 ∧
    ((specOutcomes ((split ([JSValue.vStr "hi"].map convertToString) 10).zip
        [Settled.fulfilled (JSValue.vArr [JSValue.vNum 3])])).enum).map Prod.fst
      = List.range 1 :=
  outcome_cursor_assignment [JSValue.vStr "hi"] 10 1
    [Settled.fulfilled (JSValue.vArr [JSValue.vNum 3])] (by decide) (by decide)

theorem waveLoop_count (m : Nat) (hm : 1 ≤ m) :
    ∀ (fuel : Nat) (bs : List (List String)), bs.length ≤ fuel →
      (waveLoop m fuel bs).map List.length = some ((bs.length + m - 1) / m) := by
  intro fuel
  induction fuel with
  | zero =>
    intro bs hf
    have hbs : bs = [] := List.length_eq_zero.mp (Nat.le_zero.mp hf)
    subst hbs
    show some 0 = some ((0 + m - 1) / m)
    rw [Nat.div_eq_of_lt (show 0 + m - 1 < m by omega)]
  | succ fuel ih =>
    intro bs hf
    cases bs with
    | nil =>
      show some 0 = some ((0 + m - 1) / m)
      rw [Nat.div_eq_of_lt (show 0 + m - 1 < m by omega)]
    | cons b bs2 =>
      simp only [waveLoop]
      have hrec := ih ((b :: bs2).drop m)
        (by simp only [List.length_drop, List.length_cons] at *; omega)
      cases hcase : waveLoop m fuel ((b :: bs2).drop m) with
      | none => rw [hcase] at hrec; simp at hrec
      | some ws2 =>
        rw [hcase] at hrec
        simp only [Option.map_some', Option.some.injEq, List.length_drop,
          List.length_cons] at hrec
        simp only [Option.map_some', Option.some.injEq, List.length_cons]
        rcases Nat.le_total (bs2.length + 1) m with hle | hge
        · have h0 : bs2.length + 1 - m = 0 := by omega
          rw [h0] at hrec
          have hz : ws2.length = 0 := by
            rw [hrec]
            exact Nat.div_eq_of_lt (show 0 + m - 1 < m by omega)
          rw [hz]
          exact (Nat.div_eq_of_lt_le (show 1 * m ≤ bs2.length + 1 + m - 1 by omega)
            (show bs2.length + 1 + m - 1 < (1 + 1) * m by omega)).symm
        · have h1 : bs2.length + 1 - m + m - 1 = bs2.length := by omega
          rw [h1] at hrec
          have h2 : bs2.length + 1 + m - 1 = bs2.length + m := by omega
          rw [h2, Nat.add_div_right _ (show 0 < m by omega)]
          omega

/-- C10: dispatch termination and wave count. With a concurrency ceiling
of at least 1, the wave loop on any finite batch list terminates within
`bs.length` iterations and performs exactly the ceiling of
`bs.length / m` waves; with ceiling 0 the loop never finishes (the
splice removes nothing), which is why the precondition is required. -/
theorem dispatch_wave_count (m : Nat) (bs : List (List String)) (hm : 1 ≤ m) :
    (waveLoop m bs.length bs).map List.length = some ((bs.length + m - 1) / m) ∧
    (∀ (fuel : Nat) (bs2 : List (List String)), bs2 ≠ [] → waveLoop 0 fuel bs2 = none) := by
  constructor
  · exact waveLoop_count m hm bs.length bs (le_refl _)
  · intro fuel
    induction fuel with
    | zero =>
      intro bs2 h
      cases bs2 with
      | nil => exact absurd rfl h
      | cons b rest => rfl
    | succ fuel ih =>
      intro bs2 h
      cases bs2 with
      | nil => exact absurd rfl h
      | cons b rest =>
        simp only [waveLoop, List.drop_zero]
        rw [ih (b :: rest) (by simp)]

/-- Witness for C10 at a concrete input: three batches with ceiling 2
make exactly two waves. -/
theorem dispatch_wave_count_instance :
    (waveLoop 2 3 [["a"], ["b"], ["c"]]).map List.length = some ((3 + 2 - 1) / 2) :=
  (dispatch_wave_count 2 [["a"], ["b"], ["c"]] (by decide)).1

theorem waveEvents_countP_start (w : List (List String)) :
    (waveEvents w).countP isStart = w.length := by
  unfold waveEvents
  rw [List.countP_append, List.countP_map, List.countP_map]
  have h1 : List.countP (isStart ∘ EngineEvent.callStart) w = w.length :=
    List.countP_eq_length.mpr (fun a _ => rfl)
  have h2 : List.countP (isStart ∘ EngineEvent.callSettle) w = 0 :=
    List.countP_eq_zero.mpr (fun a _ => by simp [Function.comp, isStart])
  rw [h1, h2]
  omega

theorem waveEvents_countP_settle (w : List (List String)) :
    (waveEvents w).countP (fun e => !isStart e) = w.length := by
  unfold waveEvents
  rw [List.countP_append, List.countP_map, List.countP_map]
  have h1 : List.countP ((fun e => !isStart e) ∘ EngineEvent.callStart) w = 0 :=
    List.countP_eq_zero.mpr (fun a _ => by simp [Function.comp, isStart])
  have h2 : List.countP ((fun e => !isStart e) ∘ EngineEvent.callSettle) w = w.length :=
    List.countP_eq_length.mpr (fun a _ => rfl)
  rw [h1, h2]
  omega

theorem outstanding_append (t1 t2 : List EngineEvent) :
    outstanding (t1 ++ t2) = outstanding t1 + outstanding t2 := by
  unfold outstanding
  rw [List.countP_append, List.countP_append]
  push_cast
  ring

theorem outstanding_waveEvents (w : List (List String)) :
    outstanding (waveEvents w) = 0 := by
  unfold outstanding
  rw [waveEvents_countP_start, waveEvents_countP_settle]
  simp

theorem outstanding_take_waveEvents (w : List (List String)) (n : Nat) :
    outstanding ((waveEvents w).take n) ≤ (w.length : Int) := by
  unfold waveEvents outstanding
  rw [List.take_append_eq_append_take]
  simp only [← List.map_take, List.countP_append, List.countP_map]
  have h1 : List.countP (isStart ∘ EngineEvent.callStart) (w.take n) = (w.take n).length :=
    List.countP_eq_length.mpr (fun a _ => rfl)
  have h2 : ∀ (n2 : Nat), List.countP (isStart ∘ EngineEvent.callSettle) (w.take n2) = 0 :=
    fun n2 => List.countP_eq_zero.mpr (fun a _ => by simp [Function.comp, isStart])
  rw [h1, h2]
  have h3 : (w.take n).length ≤ w.length := by
    rw [List.length_take]
    exact Nat.min_le_right _ _
  omega

theorem dispatchTrace_outstanding_zero :
    ∀ (ws : List (List (List String))), outstanding (dispatchTrace ws) = 0 := by
  intro ws
  induction ws with
  | nil => simp [dispatchTrace, outstanding]
  | cons w rest ih =>
    simp only [dispatchTrace, List.flatMap_cons]
    rw [show (waveEvents w ++ rest.flatMap waveEvents) = waveEvents w ++ dispatchTrace rest
        from rfl,
      outstanding_append, outstanding_waveEvents, ih]
    omega

theorem dispatchTrace_countP_start :
    ∀ (ws : List (List (List String))),
      (dispatchTrace ws).countP isStart = ws.flatten.length := by
  intro ws
  induction ws with
  | nil => simp [dispatchTrace]
  | cons w rest ih =>
    simp only [dispatchTrace, List.flatMap_cons, List.countP_append, List.flatten_cons,
      List.length_append]
    rw [waveEvents_countP_start]
    simp only [dispatchTrace] at ih
    rw [ih]

theorem dispatchTrace_take_bound (m : Nat) :
    ∀ (ws : List (List (List String))), (∀ w ∈ ws, w.length ≤ m) →
      ∀ (n : Nat), outstanding ((dispatchTrace ws).take n) ≤ (m : Int) := by
  intro ws
  induction ws with
  | nil =>
    intro _ n
    simp [dispatchTrace, outstanding]
  | cons w rest ih =>
    intro h n
    have hw : (w.length : Int) ≤ (m : Int) := by
      exact_mod_cast h w (List.mem_cons_self w rest)
    have hrest : ∀ w2 ∈ rest, List.length w2 ≤ m :=
      fun w2 hm2 => h w2 (List.mem_cons_of_mem w hm2)
    simp only [dispatchTrace, List.flatMap_cons]
    rw [List.take_append_eq_append_take, outstanding_append]
    rcases Nat.le_total n (waveEvents w).length with hle | hge
    · have h0 : n - (waveEvents w).length = 0 := Nat.sub_eq_zero_of_le hle
      rw [h0]
      have hz : outstanding (List.take 0 (rest.flatMap waveEvents)) = 0 := by
        simp [outstanding]
      rw [hz]
      have := outstanding_take_waveEvents w n
      omega
    · rw [List.take_of_length_le hge, outstanding_waveEvents]
      have := ih hrest (n - (waveEvents w).length)
      simp only [dispatchTrace] at this
      omega

theorem waveLoop_structure (m : Nat) :
    ∀ (fuel : Nat) (bs : List (List String)) (ws : List (List (List String))),
      waveLoop m fuel bs = some ws →
      (∀ w ∈ ws, w.length ≤ m) ∧ ws.flatten = bs := by
  intro fuel
  induction fuel with
  | zero =>
    intro bs ws h
    cases bs with
    | nil =>
      have : ws = [] := by simpa [waveLoop] using h.symm
      subst this
      exact ⟨fun w hw => absurd hw (List.not_mem_nil w), rfl⟩
    | cons b bs2 => simp [waveLoop] at h
  | succ fuel ih =>
    intro bs ws h
    cases bs with
    | nil =>
      have : ws = [] := by simpa [waveLoop] using h.symm
      subst this
      exact ⟨fun w hw => absurd hw (List.not_mem_nil w), rfl⟩
    | cons b bs2 =>
      simp only [waveLoop] at h
      cases hcase : waveLoop m fuel ((b :: bs2).drop m) with
      | none => rw [hcase] at h; simp at h
      | some ws2 =>
        rw [hcase] at h
        simp only [Option.some.injEq] at h
        obtain ⟨h1, h2⟩ := ih ((b :: bs2).drop m) ws2 hcase
        subst h
        constructor
        · intro w hw
          rcases List.mem_cons.mp hw with h3 | h3
          · rw [h3, List.length_take]
            exact Nat.min_le_left _ _
          · exact h1 w h3
        · simp only [List.flatten_cons, h2]
          exact List.take_append_drop m (b :: bs2)

/-- C4: wave-based dispatch with a concurrency ceiling. Whenever the
wave loop completes on a batch list, it produces consecutive waves of at
most `m` batches each taken in order (their concatenation is the batch
list), the engine is started exactly once per batch, every wave's calls
have all settled at each wave boundary (outstanding calls return to zero
before the next wave begins, so a wave never tops up early), and at any
prefix of the event trace at most `m` engine calls are outstanding. -/
theorem dispatch_wave_concurrency (m fuel : Nat) (bs : List (List String))
    (ws : List (List (List String))) (h : waveLoop m fuel bs = some ws) :
    (∀ w ∈ ws, w.length ≤ m) ∧
    ws.flatten = bs ∧
    (dispatchTrace ws).countP isStart = bs.length ∧
    (∀ j, outstanding (dispatchTrace (ws.take j)) = 0) ∧
    (∀ n, outstanding ((dispatchTrace ws).take n) ≤ (m : Int)) := by
  obtain ⟨h1, h2⟩ := waveLoop_structure m fuel bs ws h
  refine ⟨h1, h2, ?_, ?_, ?_⟩
  · rw [dispatchTrace_countP_start, h2]
  · intro j
    exact dispatchTrace_outstanding_zero (ws.take j)
  · exact dispatchTrace_take_bound m ws h1

/-- Witness for C4 at a concrete input: with ceiling 2 over three
batches, no prefix of the dispatch trace ever has more than 2 engine
calls outstanding. -/
theorem dispatch_wave_concurrency_instance :
    outstanding ((dispatchTrace [[["a"], ["b"]], [["c"]]]).take 3) ≤ (2 : Int) :=
  (dispatch_wave_concurrency 2 3 [["a"], ["b"], ["c"]] [[["a"], ["b"]], [["c"]]]
    rfl).2.2.2.2 3

/-- C5: the debounce decision of `createTimeout`. When the FastWait
timer expires: with a flush in progress another FastWait timer of the
same duration `fastQueueTime` is rescheduled; otherwise a queue of at
most one request is flushed immediately; otherwise a second timer of
duration `waitQueueTime - fastQueueTime` is started, and that second
timer's expiry flushes unconditionally. -/
theorem debounce_fast_expiry (cfg : TimerConfig) (processing : Bool) (queueLength : Nat) :
    (processing = true →
      onFastExpiry cfg processing queueLength
        = TimerDecision.rescheduleFast cfg.fastQueueTime) ∧
    (processing = false → queueLength ≤ 1 →
      onFastExpiry cfg processing queueLength = TimerDecision.flushNow) ∧
    (processing = false → 2 ≤ queueLength →
      onFastExpiry cfg processing queueLength
        = TimerDecision.scheduleExtend (cfg.waitQueueTime - cfg.fastQueueTime)) ∧
    onExtendExpiry = TimerDecision.flushNow := by
  refine ⟨?_, ?_, ?_, rfl⟩
  · intro h
    simp [onFastExpiry, h]
  · intro h hq
    simp [onFastExpiry, h, hq]
  · intro h hq
    rw [onFastExpiry, if_neg (by simp [h]), if_neg (by omega)]

/-- Witness for C5 at a concrete input: an idle manager with two queued
requests and timings 10/100 schedules the extension timer of duration
90. -/
theorem debounce_fast_expiry_instance :
    onFastExpiry ⟨10, 100⟩ false 2 = TimerDecision.scheduleExtend (100 - 10) :=
  (debounce_fast_expiry ⟨10, 100⟩ false 2).2.2.1 rfl (by omega)

/-- C8: engine-not-configured error. For every manager state with no
engine set and every value, the enqueue phase of `create` returns the
state unchanged — nothing is enqueued, no timer is started — together
with the thrown error, whose message names the missing vector engine. -/
theorem engine_not_configured (s : MState) (v : JSValue) (h : s.engineSet = false) :
    createEnqueue s v = (s, Except.error engineMissingMessage) ∧
    engineMissingMessage
      = "Could not vectorize: no vector engine has been set.\n"
        ++ "Use Instant.Vectors.setEngine(fn) to enable." := by
  constructor
  · simp [createEnqueue, h]
  · rfl

/-- Witness for C8 at a concrete state: an empty manager with no engine
rejects the request and is left untouched. -/
theorem engine_not_configured_instance :
    createEnqueue ⟨false, [], false, false⟩ (JSValue.vStr "x")
      = (⟨false, [], false, false⟩, Except.error engineMissingMessage) ∧
    engineMissingMessage
      = "Could not vectorize: no vector engine has been set.\n"
        ++ "Use Instant.Vectors.setEngine(fn) to enable." :=
  engine_not_configured ⟨false, [], false, false⟩ (JSValue.vStr "x") rfl

theorem truthy_wrapReason (r : JSValue) : truthy (wrapReason r) = true := by
  cases r <;> simp [wrapReason, isError, truthy]

theorem truthy_outcomeAt (vs : List JSValue) (k : Nat) :
    truthy (outcomeAt vs k) = true := by
  unfold outcomeAt
  by_cases h : truthy (jsIndex vs k) = true
  · simp [h]
  · rw [if_neg (by simp [h])]
    rfl

theorem specOutcome_truthy (b : List String) (r : Settled) :
    ∀ v ∈ specOutcome b r, truthy v = true := by
  intro v hv
  cases r with
  | rejected reason =>
    simp only [specOutcome, List.mem_map] at hv
    obtain ⟨_, _, hv2⟩ := hv
    rw [← hv2]
    exact truthy_wrapReason reason
  | fulfilled vec =>
    simp only [specOutcome, List.mem_map] at hv
    obtain ⟨k, _, hv2⟩ := hv
    rw [← hv2]
    exact truthy_outcomeAt (asArray vec) k

theorem mem_enumFrom_snd {α : Type} {p i : Nat} {v : α} {l : List α}
    (h : (p, v) ∈ List.enumFrom i l) : v ∈ l := by
  obtain ⟨h1, h2, h3⟩ := List.mem_enumFrom h
  rw [h3]
  exact List.getElem_mem _

/-- C9: truthy-outcome invariant. Every value the dispatch path writes
into the result store is truthy — a (possibly wrapped) `Error`, a truthy
vector entry, or the sentinel `-1` —, and the poll of `create` observes
an absent slot as pending (`undefined` is falsy) and any written outcome
as present; the poll-until-truthy loop therefore exits exactly when an
outcome has been written. -/
theorem outcomes_truthy :
    (∀ (pairs : List (List String × Settled)) (i p : Nat) (v : JSValue),
        (p, v) ∈ settledWrites pairs i → truthy v = true) ∧
    pollObserves none = false ∧
    (∀ v : JSValue, truthy v = true → pollObserves (some v) = true) := by
  refine ⟨?_, rfl, fun v hv => hv⟩
  intro pairs i p v hmem
  rw [settledWrites_eq] at hmem
  have hv : v ∈ specOutcomes pairs := mem_enumFrom_snd hmem
  simp only [specOutcomes, List.mem_flatMap] at hv
  obtain ⟨pair, _, hv2⟩ := hv
  exact specOutcome_truthy pair.1 pair.2 v hv2

/-- Witness for C9 at a concrete input: the error written for a rejected
singleton batch is truthy, and the empty slot reads as pending. -/
theorem outcomes_truthy_instance :
    truthy (JSValue.vErr "e") = true ∧ pollObserves none = false :=
  ⟨outcomes_truthy.1 [(["a"], Settled.rejected (JSValue.vErr "e"))] 0 0 (JSValue.vErr "e")
      (by simp [settledWrites, batchWrites, rejectedWrites, wrapReason, isError]),
    outcomes_truthy.2.1⟩

theorem settledWrites_append (p1 p2 : List (List String × Settled)) (i : Nat) :
    settledWrites (p1 ++ p2) i
      = settledWrites p1 i ++ settledWrites p2 (i + (settledWrites p1 i).length) := by
  rw [settledWrites_eq, settledWrites_eq, settledWrites_eq, specOutcomes_append,
    List.enumFrom_append, List.enumFrom_length]

/-- C6 counterexample: an engine rejection whose reason is the plain
string "boom" (not an `Error`) is surfaced to the batch's request as a
new `Error` wrapping that string — not as the original reason value
verbatim, contradicting the claim that the original error value is
surfaced verbatim for every failed batch. -/
theorem rejected_reason_not_verbatim :
    dispatchLoop 10 1 [["a"]] [Settled.rejected (JSValue.vStr "boom")] 0
      = some [(0, JSValue.vErr "boom")] ∧
    JSValue.vErr "boom" ≠ JSValue.vStr "boom" :=
  ⟨rfl, fun h => JSValue.noConfusion h⟩

/-- C6 (amended): batch-failure propagation. Every request of a batch
whose engine call rejected receives one and the same failure value: the
rejection reason itself when the reason is an `Error` (surfaced
verbatim), and otherwise an `Error` wrapping the string form of the
reason; writes for distinct batches are independent, so requests in
other batches are unaffected. -/
theorem batch_failure_same_value :
    (∀ (b : List String) (reason : JSValue) (i p : Nat) (v : JSValue),
        (p, v) ∈ batchWrites b (Settled.rejected reason) i → v = wrapReason reason) ∧
    (∀ reason : JSValue, isError reason = true → wrapReason reason = reason) ∧
    (∀ reason : JSValue, isError reason = false →
        wrapReason reason = JSValue.vErr (jsString reason)) ∧
    (∀ (p1 p2 : List (List String × Settled)) (i : Nat),
        settledWrites (p1 ++ p2) i
          = settledWrites p1 i ++ settledWrites p2 (i + (settledWrites p1 i).length)) := by
  refine ⟨?_, ?_, ?_, settledWrites_append⟩
  · intro b reason i p v hmem
    rw [batchWrites_eq] at hmem
    have hv := mem_enumFrom_snd hmem
    simp only [specOutcome, List.mem_map] at hv
    obtain ⟨_, _, hv2⟩ := hv
    exact hv2.symm
  · intro reason h
    simp [wrapReason, h]
  · intro reason h
    simp [wrapReason, h]

/-- Witness for C6 (amended) at a concrete input: both requests of a
two-item batch rejected with an `Error` reason receive exactly that
`Error` value. -/
theorem batch_failure_same_value_instance :
    JSValue.vErr "down" = wrapReason (JSValue.vErr "down") :=
  batch_failure_same_value.1 ["a", "b"] (JSValue.vErr "down") 0 1 (JSValue.vErr "down")
    (by simp [batchWrites, rejectedWrites, wrapReason, isError])

/-- C7 counterexample: an engine that fulfills with the array
`[Error("bad")]` stores that `Error` entry (it is truthy) for the single
request of the batch, and `create`'s classification then throws the
stored `Error` itself — not the `InvalidVectorResult` error naming the
input — even though the stored outcome is not a vector sequence. -/
theorem error_entry_not_invalid_result :
    batchWrites ["x"] (Settled.fulfilled (JSValue.vArr [JSValue.vErr "bad"])) 0
      = [(0, JSValue.vErr "bad")] ∧
    classifyResult (JSValue.vStr "x") (JSValue.vErr "bad")
      = Except.error (JSValue.vErr "bad") ∧
    JSValue.vErr "bad" ≠ invalidVectorError (JSValue.vStr "x") := by
  refine ⟨rfl, rfl, fun h => ?_⟩
  exact absurd (JSValue.vErr.inj h) (by decide)

/-- C7 (amended): malformed-result classification. For a fulfilled
engine call, a non-array result is treated as the empty sequence; the
item at position `k` of the batch receives the result entry at `k` when
that entry is truthy and the `Malformed` sentinel `-1` otherwise. At
classification, the sentinel — like every stored non-`Error` non-array
value — makes `create` fail with the `InvalidVectorResult` error naming
the original input, while a stored entry that is itself an `Error` is
thrown verbatim instead; writes of distinct batches are independent, so
other inputs are unaffected. -/
theorem malformed_entry_classification :
    (∀ (b : List String) (v : JSValue) (i k : Nat), k < b.length →
        (batchWrites b (Settled.fulfilled v) i)[k]?
          = some (i + k, outcomeAt (asArray v) k)) ∧
    (∀ (vs : List JSValue) (k : Nat),
        (truthy (jsIndex vs k) = true → outcomeAt vs k = jsIndex vs k) ∧
        (truthy (jsIndex vs k) = false → outcomeAt vs k = JSValue.vNum (-1))) ∧
    (∀ v : JSValue, isArray v = false → asArray v = []) ∧
    (∀ (value : JSValue), classifyResult value (JSValue.vNum (-1))
        = Except.error (invalidVectorError value)) ∧
    (∀ (value r : JSValue), isError r = false → isArray r = false →
        classifyResult value r = Except.error (invalidVectorError value)) ∧
    (∀ (value r : JSValue), isError r = true →
        classifyResult value r = Except.error r) := by
  refine ⟨?_, ?_, ?_, ?_, ?_, ?_⟩
  · intro b v i k hk
    rw [batchWrites_eq, List.getElem?_enumFrom]
    simp only [specOutcome, List.getElem?_map, List.getElem?_range hk]
    rfl
  · intro vs k
    constructor
    · intro h
      simp [outcomeAt, h]
    · intro h
      rw [outcomeAt, if_neg (by simp [h])]
  · intro v h
    cases v <;> simp_all [asArray, isArray]
  · intro value
    rfl
  · intro value r h1 h2
    rw [classifyResult, if_neg (by simp [h1]), if_pos h2]
  · intro value r h
    simp [classifyResult, h]

/-- Witness for C7 (amended) at a concrete input: a fulfilled result
missing the entry for position 0 stores the sentinel, and the sentinel
classifies as the `InvalidVectorResult` error naming the input. -/
theorem malformed_entry_classification_instance :
    (batchWrites ["x"] (Settled.fulfilled (JSValue.vArr [])) 0)[0]?
      = some (0 + 0, outcomeAt (asArray (JSValue.vArr [])) 0) ∧
    classifyResult (JSValue.vStr "x") (JSValue.vNum (-1))
      = Except.error (invalidVectorError (JSValue.vStr "x")) :=
  ⟨malformed_entry_classification.1 ["x"] (JSValue.vArr []) 0 0 (by decide),
    malformed_entry_classification.2.2.2.1 (JSValue.vStr "x")⟩
